import Mathlib

/-!
# apizza: configuration accessor, staleness cache and command handlers

A shallow embedding of the command handlers of `cmd/` (config.go, order.go,
menu.go)
and of the error type of `dawg/dawg.go`, together with the two packages they
call, `pkg/config` and `pkg/cache`, which are modelled from the
specification.

Text is `String`; every text function is written over the character list
`String.data`, so that it evaluates inside the kernel.
Map enumeration (`range` over a Go map) is modelled by a list whose order
carries no meaning.
-/

set_option autoImplicit false

/-! ## Text helpers (Go `strings`) -/

/-- Go `strings.Split(s, sep)` for a one-character separator, over characters:
the pieces between the separators, `[[]]` for the empty text. -/
def splitOnChar (sep : Char) : List Char → List (List Char)
  | [] => [[]]
  | c :: cs =>
    if c = sep then [] :: splitOnChar sep cs
    else
      match splitOnChar sep cs with
      | [] => [[c]]
      | p :: ps => (c :: p) :: ps

/-- Go `strings.Split(s, string(sep))`. -/
def strSplit (s : String) (sep : Char) : List String :=
  (splitOnChar sep s.data).map String.mk

/-- ASCII lower-casing of a text, used for case-insensitive segment matching. -/
def lower (s : String) : String :=
  String.mk (s.data.map Char.toLower)

/-- Decimal reading of a non-empty run of digits. -/
def parseNat (cs : List Char) : Option Nat :=
  if cs = [] then none
  else
    cs.foldl
      (fun acc c => acc.bind fun n => if c.isDigit then some (10 * n + (c.toNat - 48)) else none)
      (some 0)

/-- Decimal reading of an integer with an optional sign. -/
def parseInt (cs : List Char) : Option Int :=
  match cs with
  | '-' :: ds => (parseNat ds).map fun n => - (n : Int)
  | '+' :: ds => (parseNat ds).map fun n => (n : Int)
  | ds => (parseNat ds).map fun n => (n : Int)

/-- `strLen` of `cmd/menu.go`: `utf8.RuneCountInString`, the number of runes
of a text, as a Go `int`. -/
def strLen (s : String) : Int :=
  Int.ofNat s.data.length

/-- Go `strings.ToUpper`: the text mapped rune by rune; `toUpper` stands for
`unicode.ToUpper`. -/
def strToUpper (toUpper : Char → Char) (s : String) : String :=
  String.mk (s.data.map toUpper)

/-- `spaces` of `cmd/menu.go`: `strings.Repeat(" ", i)`, which panics on a
negative count; `none` is the panic. -/
def spaces (i : Int) : Option String :=
  if i < 0 then none else some (String.mk (List.replicate i.toNat ' '))

/-! ## `pkg/config`: the dotted-path accessor -/

namespace config

/-- The error taxonomy of the accessor. -/
inductive Error where
  | KeyNotFound
  | IndexOutOfRange
  | InvalidKey
  | InvalidTarget
  | TypeMismatch
  deriving DecidableEq, Repr

/-- The declared type of a scalar field. -/
inductive Kind where
  | text
  | number
  | boolean
  deriving DecidableEq, Repr

/-- A value held by a scalar field. -/
inductive Scalar where
  | text (s : String)
  | number (n : Int)
  | boolean (b : Bool)
  deriving DecidableEq, Repr

/-- Modelled from the spec: a configuration document (`pkg/config` is
absent): a scalar field, a sub-document of named fields, or a sequence of
documents. A scalar field has a declared type, the value it holds (`none`
while the field is unset) and the default it declares, if any. -/
inductive Node where
  | scalar (kind : Kind) (value : Option Scalar) (dflt : Option String)
  | record (fields : List (String × Node))
  | list (items : List Node)

/-- What `Get` hands back: the external text of a scalar, or the node itself
when the path stops at a sub-document or a sequence. -/
inductive Value where
  | text (s : String)
  | document (n : Node)

/-- Modelled from the spec: the external representation of a scalar value
(`pkg/config` is absent): the text itself, decimal text for a number, `true`
or `false` for a boolean. -/
def Scalar.external : Scalar → String
  | .text s => s
  | .number n => toString n
  | .boolean b => if b then "true" else "false"

/-- Modelled from the spec: the zero or empty representation of a declared
type (`pkg/config` is absent), which is what an unset field without a default
reads as. -/
def Kind.zeroExternal : Kind → String
  | .text => ""
  | .number => "0"
  | .boolean => "false"

/-- Modelled from the spec: the value `Get` returns for a resolved node
(`pkg/config` is absent). A scalar field that holds a value gives the
external representation of that value; an unset field gives the default it
declares, or the zero or empty representation of its type when it declares
none. A field that was set holds the value it was set to, the empty text
included. -/
def represent : Node → Value
  | .scalar _ (some v) _ => .text v.external
  | .scalar _ none (some t) => .text t
  | .scalar k none none => .text k.zeroExternal
  | .record fs => .document (.record fs)
  | .list xs => .document (.list xs)

/-- Modelled from the spec: field lookup in a sub-document (`pkg/config` is
absent): the first field whose name matches the segment, case-insensitively. -/
def findField (seg : String) : List (String × Node) → Option Node
  | [] => none
  | (name, child) :: rest =>
    if lower name = lower seg then some child else findField seg rest

/-- Modelled from the spec: the write-back of `Set` into a sub-document
(`pkg/config` is absent): the child of the first field whose name matches the
segment is replaced. -/
def replaceField (seg : String) (child : Node) : List (String × Node) → List (String × Node)
  | [] => []
  | (name, old) :: rest =>
    if lower name = lower seg then (name, child) :: rest
    else (name, old) :: replaceField seg child rest

/-- Modelled from the spec: a sequence segment must be a non-negative integer
index (`pkg/config` is absent). -/
def parseIndex (seg : String) : Option Nat :=
  parseNat seg.data

/-- Modelled from the spec: path resolution of `Get` (`pkg/config` is absent).
Each segment is resolved against the current node: a field name in a
sub-document, an index in a sequence; a scalar reached before the path is
exhausted, or a name that matches no field, is `KeyNotFound`. -/
def resolve : Node → List String → Except Error Node
  | n, [] => .ok n
  | .scalar _ _ _, _ :: _ => .error .KeyNotFound
  | .record fs, seg :: rest =>
    match findField seg fs with
    | some child => resolve child rest
    | none => .error .KeyNotFound
  | .list xs, seg :: rest =>
    match parseIndex seg with
    | none => .error .KeyNotFound
    | some i =>
      match xs[i]? with
      | some child => resolve child rest
      | none => .error .IndexOutOfRange

/-- Modelled from the spec: resolution of a dotted key (`pkg/config` is
absent): the empty path is `InvalidKey`, otherwise the key is split on `.`. -/
def lookup (doc : Node) (key : String) : Except Error Node :=
  if key = "" then .error .InvalidKey else resolve doc (strSplit key '.')

/-- Modelled from the spec: `config.Get` (`pkg/config` is absent). Nothing is
returned when the path does not resolve. -/
def Get (doc : Node) (key : String) : Option Value :=
  match lookup doc key with
  | .ok n => some (represent n)
  | .error _ => none

/-- Modelled from the spec: coercion of the text supplied to `Set` into the
declared type of the field (`pkg/config` is absent): direct assignment for
text, parse-and-validate for numbers and booleans. -/
def coerce : Kind → String → Option Scalar
  | .text, v => some (.text v)
  | .number, v => (parseInt v.data).map .number
  | .boolean, v =>
    if v = "true" then some (.boolean true)
    else if v = "false" then some (.boolean false)
    else none

/-- Modelled from the spec: the in-place assignment of `Set` along a path
(`pkg/config` is absent). The path is resolved as in `Get`; the final node
must be a scalar (`InvalidTarget` otherwise), a missing sequence element is
`InvalidTarget` (a sequence does not grow by assignment), and a value that
does not parse into the declared type is `TypeMismatch`. -/
def assign : Node → List String → String → Except Error Node
  | .scalar k _ d, [], v =>
    match coerce k v with
    | some s' => .ok (.scalar k (some s') d)
    | none => .error .TypeMismatch
  | .record _, [], _ => .error .InvalidTarget
  | .list _, [], _ => .error .InvalidTarget
  | .scalar _ _ _, _ :: _, _ => .error .KeyNotFound
  | .record fs, seg :: rest, v =>
    match findField seg fs with
    | none => .error .KeyNotFound
    | some child =>
      match assign child rest v with
      | .ok child' => .ok (.record (replaceField seg child' fs))
      | .error e => .error e
  | .list xs, seg :: rest, v =>
    match parseIndex seg with
    | none => .error .KeyNotFound
    | some i =>
      match xs[i]? with
      | none => .error .InvalidTarget
      | some child =>
        match assign child rest v with
        | .ok child' => .ok (.list (xs.set i child'))
        | .error e => .error e

/-- Modelled from the spec: `config.Set` (`pkg/config` is absent). Returns the
document after the call and the error, if any; a failed call leaves the
document as it was. -/
def Set (doc : Node) (key : String) (val : String) : Node × Option Error :=
  if key = "" then (doc, some .InvalidKey)
  else
    match assign doc (strSplit key '.') val with
    | .ok doc' => (doc', none)
    | .error e => (doc, some e)

/-- Every scalar field of the document is declared as text. -/
inductive TextOnly : Node → Prop where
  | scalar (v : Option Scalar) (d : Option String) : TextOnly (.scalar .text v d)
  | record (fs : List (String × Node)) : (∀ p ∈ fs, TextOnly p.2) → TextOnly (.record fs)
  | list (xs : List Node) : (∀ x ∈ xs, TextOnly x) → TextOnly (.list xs)

end config

/-! ## `cmd/config.go` -/

/-- The `address` struct of `cmd/config.go`. -/
structure address where
  Street : String
  CityName : String
  State : String
  Zipcode : String
  deriving DecidableEq, Repr

/-- The anonymous `Card` struct of `Config`. -/
structure Card where
  Number : String
  Expiration : String
  CVV : String
  deriving DecidableEq, Repr

/-- The anonymous element struct of `Config.MyOrders`. -/
structure MyOrder where
  Name : String
  deriving DecidableEq, Repr

/-- The configuration struct of `cmd/config.go`. -/
structure Config where
  Name : String
  Email : String
  Address : address
  Card : Card
  Service : String
  MyOrders : List MyOrder
  deriving DecidableEq, Repr

namespace Config

/-- Modelled from the spec: the value a text field of the struct holds for
the accessor (`pkg/config` is absent). A Go string that was never assigned is
the empty text, so a field holding the empty text is taken as unset; any
other text is the value held. -/
def held (s : String) : Option config.Scalar :=
  if s = "" then none else some (.text s)

/-- A text field without a declared default. -/
def textField (s : String) : config.Node :=
  .scalar .text (held s) none

/-- The value of the `default` struct tag of `Service`: the ten characters
of the quoted word Delivery. -/
def serviceDefault : String :=
  "\"Delivery\""

/-- The document the accessor sees through the `config` struct tags. -/
def toNode (c : Config) : config.Node :=
  .record
    [ ("name", textField c.Name),
      ("email", textField c.Email),
      ("address", .record
        [ ("street", textField c.Address.Street),
          ("city_name", textField c.Address.CityName),
          ("state", textField c.Address.State),
          ("zipcode", textField c.Address.Zipcode) ]),
      ("card", .record
        [ ("number", textField c.Card.Number),
          ("expiration", textField c.Card.Expiration),
          ("cvv", textField c.Card.CVV) ]),
      ("service", .scalar .text (held c.Service) (some serviceDefault)),
      ("myorders", .list (c.MyOrders.map fun o => .record [("name", textField o.Name)])) ]

/-- `Config.Get`: `config.Get(c, key)`. -/
def Get (c : Config) (key : String) : Option config.Value :=
  config.Get c.toNode key

/-- `Config.Set`: `config.Set(c, key, val)`; the document after the call and
the error. -/
def Set (c : Config) (key : String) (val : String) : config.Node × Option config.Error :=
  config.Set c.toNode key val

end Config

/-- `address.LineOne`. -/
def address.LineOne (a : address) : String :=
  a.Street

/-- `address.StateCode`: the state in upper case when it has two runes, the
empty text otherwise. -/
def address.StateCode (toUpper : Char → Char) (a : address) : String :=
  if strLen a.State = 2 then strToUpper toUpper a.State else ""

/-- `address.City`. -/
def address.City (a : address) : String :=
  a.CityName

/-- `address.Zip`: the zip code when it has five runes, the empty text
otherwise. -/
def address.Zip (a : address) : String :=
  if strLen a.Zipcode = 5 then a.Zipcode else ""

/-- The anonymous map value `mapstructure.Decode` stores for one struct
field: the field's Go value, whole. -/
inductive FieldValue where
  | str (s : String)
  | address (a : address)
  | card (c : Card)
  | orders (l : List MyOrder)
  deriving DecidableEq, Repr

/-! ## `pkg/cache`: the key-value store and the staleness cache -/

namespace cache

/-- An opaque serialized payload. -/
abbrev Bytes := List Nat

/-- Failures of the key-value store. -/
inductive DBError where
  | NotFound
  | StoreUnavailable
  deriving DecidableEq, Repr

/-- Modelled from the spec: the key-value store behind `db` (`pkg/cache` is
absent): a mapping from keys to byte values, and whether the persistence
layer is broken, in which case every operation fails with
`StoreUnavailable`. -/
structure DataBase where
  entries : List (String × Bytes)
  broken : Bool
  deriving DecidableEq, Repr

/-- Modelled from the spec: `Get(key)` of the store contract (`pkg/cache` is
absent). -/
def DataBase.Get (db : DataBase) (key : String) : Except DBError Bytes :=
  if db.broken then .error .StoreUnavailable
  else
    match db.entries.find? (fun p => p.1 = key) with
    | some p => .ok p.2
    | none => .error .NotFound

/-- Modelled from the spec: `Put(key, value)` of the store contract
(`pkg/cache` is absent): the store after the call and the error. -/
def DataBase.Put (db : DataBase) (key : String) (val : Bytes) : DataBase × Option DBError :=
  if db.broken then (db, some .StoreUnavailable)
  else ({ db with entries := (key, val) :: db.entries.filter (fun p => p.1 ≠ key) }, none)

/-- Modelled from the spec: `Delete(key)` of the store contract (`pkg/cache`
is absent). -/
def DataBase.Delete (db : DataBase) (key : String) : DataBase × Option DBError :=
  if db.broken then (db, some .StoreUnavailable)
  else ({ db with entries := db.entries.filter (fun p => p.1 ≠ key) }, none)

/-- Modelled from the spec: `GetAll()` of the store contract (`pkg/cache` is
absent). -/
def DataBase.GetAll (db : DataBase) : Except DBError (List (String × Bytes)) :=
  if db.broken then .error .StoreUnavailable else .ok db.entries

/-- One record per named resource: the snapshot of the last successful
refresh and its time. -/
structure CacheRecord where
  resourceName : String
  snapshot : Bytes
  fetchedAt : Int
  deriving DecidableEq, Repr

/-- The cache records of a store, one per resource. -/
abbrev Records := List CacheRecord

/-- The record of a resource, if any. -/
def Records.find (st : Records) (name : String) : Option CacheRecord :=
  List.find? (fun r => r.resourceName = name) st

/-- Delete the record of a resource. -/
def Records.delete (st : Records) (name : String) : Records :=
  List.filter (fun r => r.resourceName ≠ name) st

/-- Write a record, overwriting any prior record of the same resource. -/
def Records.put (st : Records) (r : CacheRecord) : Records :=
  r :: Records.delete st r.resourceName

/-- Modelled from the spec: the key-value store as the cache uses it
(`pkg/cache` is absent): the records held under the reserved keys, and
whether the persistence layer is broken, in which case every operation fails
with `StoreUnavailable` and changes nothing. -/
structure RecordStore where
  records : Records
  broken : Bool
  deriving DecidableEq, Repr

/-- Modelled from the spec: `Get` of the store contract on the reserved key
of a resource (`pkg/cache` is absent). -/
def RecordStore.Get (st : RecordStore) (name : String) : Except DBError CacheRecord :=
  if st.broken then .error .StoreUnavailable
  else
    match Records.find st.records name with
    | some r => .ok r
    | none => .error .NotFound

/-- Modelled from the spec: `Put` of the store contract on the reserved key
of a resource (`pkg/cache` is absent): the store after the call and the
error. -/
def RecordStore.Put (st : RecordStore) (r : CacheRecord) : RecordStore × Option DBError :=
  if st.broken then (st, some .StoreUnavailable)
  else ({ st with records := Records.put st.records r }, none)

/-- Modelled from the spec: `Delete` of the store contract on the reserved
key of a resource (`pkg/cache` is absent): the store after the call and the
error. -/
def RecordStore.Delete (st : RecordStore) (name : String) : RecordStore × Option DBError :=
  if st.broken then (st, some .StoreUnavailable)
  else ({ st with records := Records.delete st.records name }, none)

/-- The states of a resource. -/
inductive State where
  | Absent
  | Fresh
  | Stale
  deriving DecidableEq, Repr

/-- Modelled from the spec: the state of a resource at time `now` for a
staleness window `ttl` (`pkg/cache` is absent): `Fresh` when a record exists,
`now - fetchedAt < ttl` and no refresh is forced. -/
def stateOf (st : Records) (name : String) (ttl now : Int) (force : Bool) : State :=
  match Records.find st name with
  | none => .Absent
  | some r => if now - r.fetchedAt < ttl ∧ force = false then .Fresh else .Stale

/-- Modelled from the spec: the caller-supplied refresh capability
(`pkg/cache` is absent): an operation with a state of its own (the remote
service, the network) that, from the prior snapshot if any, produces a new
snapshot or fails. The cache can do nothing with it but invoke it. -/
abbrev RefreshCapability (σ : Type) := σ → Option Bytes → σ × Option Bytes

/-- One invocation of a refresh capability: the prior snapshot it was given
and what it produced. -/
abbrev Invocation := Option Bytes × Option Bytes

/-- A refresh capability together with the log of its invocations: every
invocation, and nothing else, appends one entry. -/
def logged {σ : Type} (refresh : RefreshCapability σ) : RefreshCapability (σ × List Invocation) :=
  fun s prior =>
    match refresh s.1 prior with
    | (s', out) => ((s', s.2 ++ [(prior, out)]), out)

/-- Failures of `Resolve`. -/
inductive Error where
  | RefreshFailed
  | StoreUnavailable
  deriving DecidableEq, Repr

/-- The store after a `Resolve`, what it returned, and the state in which it
left the refresh capability. -/
structure Outcome (σ : Type) where
  store : RecordStore
  result : Except Error Bytes
  capability : σ

/-- Modelled from the spec: the write-back of a refreshed snapshot
(`pkg/cache` is absent): a new record with `fetchedAt = now`, overwriting any
prior record of the resource; a store failure is `StoreUnavailable`. -/
def writeBack {σ : Type} (st : RecordStore) (name : String) (now : Int) (snap : Bytes) (s : σ) :
    Outcome σ :=
  match st.Put ⟨name, snap, now⟩ with
  | (st', none) => ⟨st', .ok snap, s⟩
  | (st', some _) => ⟨st', .error .StoreUnavailable, s⟩

/-- Modelled from the spec: `Resolve(resourceName, ttl, refresh)` at time
`now` (`pkg/cache` is absent; it is what `db.UpdateTS` stands for). `force`
is the explicit refresh request and `degraded` the degraded-mode flag; `s` is
the state of the refresh capability before the call. A store failure is
fatal to the call: nothing is refreshed and `StoreUnavailable` is returned. -/
def Resolve {σ : Type} (st : RecordStore) (name : String) (ttl now : Int)
    (force degraded : Bool) (refresh : RefreshCapability σ) (s : σ) : Outcome σ :=
  match st.Get name with
  | .error .StoreUnavailable => ⟨st, .error .StoreUnavailable, s⟩
  | .error .NotFound =>
    match refresh s none with
    | (s', some snap) => writeBack st name now snap s'
    | (s', none) => ⟨st, .error .RefreshFailed, s'⟩
  | .ok r =>
    if now - r.fetchedAt < ttl ∧ force = false then ⟨st, .ok r.snapshot, s⟩
    else
      match refresh s (some r.snapshot) with
      | (s', some snap) => writeBack st name now snap s'
      | (s', none) =>
        if degraded then ⟨st, .ok r.snapshot, s'⟩ else ⟨st, .error .RefreshFailed, s'⟩

/-- Modelled from the spec: `Invalidate(resourceName)` (`pkg/cache` is
absent): deletes the record whatever it holds; the store after the call and
the error of the store, if any. -/
def Invalidate (st : RecordStore) (name : String) : RecordStore × Option DBError :=
  st.Delete name

end cache

/-! ## Errors of the command handlers -/

/-- The errors a command handler returns. -/
inductive CmdError where
  | message (text : String)
  | config (e : config.Error)
  | db (e : cache.DBError)
  | external (what : String)
  deriving DecidableEq, Repr

/-! ## `cmd/config.go`: the commands -/

/-- The entries of the map `mapstructure.Decode(c, &m)` fills: one per field
of the struct, keyed by the Go field name (the struct carries no
`mapstructure` tag). -/
def Config.decode (c : Config) : List (String × FieldValue) :=
  [ ("Name", .str c.Name),
    ("Email", .str c.Email),
    ("Address", .address c.Address),
    ("Card", .card c.Card),
    ("Service", .str c.Service),
    ("MyOrders", .orders c.MyOrders) ]

/-- `Config.printAll`: one printed line `k v` per entry of the decoded map. -/
def Config.printAll (c : Config) : List (String × FieldValue) × Option CmdError :=
  (c.decode, none)

/-- The flags of `configCmd`. -/
structure configCmd where
  file : Bool
  dir : Bool
  resetCache : Bool
  getall : Bool
  deriving DecidableEq, Repr

/-- `configCmd.run`, as far as the cache is concerned: with `--reset-cache`
the database file is removed (`removed` tells whether `os.Remove` succeeded),
which deletes every record; the other flags leave the store alone. -/
def configCmd.run (c : configCmd) (removed : Bool) (st : cache.RecordStore) :
    cache.RecordStore × Option CmdError :=
  if c.file then (st, none)
  else if c.dir then (st, none)
  else if c.resetCache then
    if removed then ({ st with records := [] }, none) else (st, some (.external "os.Remove"))
  else (st, none)

/-- The loop of `configSetCmd.run` over the arguments. -/
def configSetCmd.loop : config.Node → List String → config.Node × Option CmdError
  | cfg, [] => (cfg, none)
  | cfg, arg :: rest =>
    match strSplit arg '=' with
    | k :: v :: _ =>
      match config.Set cfg k v with
      | (cfg', none) => configSetCmd.loop cfg' rest
      | (cfg', some e) => (cfg', some (.config e))
    | _ => (cfg, some (.message "use '<key>=<value>' format"))

/-- `configSetCmd.run`: the document after the command and the error. -/
def configSetCmd.run (cfg : config.Node) (args : List String) : config.Node × Option CmdError :=
  if args.length < 1 then (cfg, some (.message "no variable given"))
  else configSetCmd.loop cfg args

/-- The loop of `configGetCmd.run` over the arguments; `out` is what has been
printed so far. -/
def configGetCmd.loop (cfg : config.Node) :
    List String → List config.Value → List config.Value × Option CmdError
  | [], out => (out, none)
  | arg :: rest, out =>
    match config.Get cfg arg with
    | none => (out, some (.message ("cannot find " ++ arg)))
    | some v => configGetCmd.loop cfg rest (out ++ [v])

/-- `configGetCmd.run`: the printed values and the error. -/
def configGetCmd.run (cfg : config.Node) (args : List String) :
    List config.Value × Option CmdError :=
  if args.length < 1 then ([], some (.message "no variable given"))
  else configGetCmd.loop cfg args []

/-! ## `cmd/order.go` -/

/-- Go `strings.Contains`, over characters. -/
def containsChars (sub : List Char) : List Char → Bool
  | [] => sub.isEmpty
  | c :: cs => sub.isPrefixOf (c :: cs) || containsChars sub cs

/-- Go `strings.Contains(s, sub)`. -/
def strContains (s sub : String) : Bool :=
  containsChars sub.data s.data

/-- Go `strings.Replace(s, old, "", -1)` over characters, for a non-empty
`old`: every non-overlapping occurrence is dropped, left to right; `skip`
counts the characters of the current occurrence still to drop. -/
def removeAllChars (old : List Char) : Nat → List Char → List Char
  | _, [] => []
  | skip + 1, _ :: cs => removeAllChars old skip cs
  | 0, c :: cs =>
    if old ≠ [] ∧ old.isPrefixOf (c :: cs) then removeAllChars old (old.length - 1) cs
    else c :: removeAllChars old 0 cs

/-- Go `strings.Replace(s, old, "", -1)`. -/
def strRemoveAll (s old : String) : String :=
  String.mk (removeAllChars old.data 0 s.data)

/-- The key under which an order is stored: `"user_order_" + name`. -/
def userOrderKey (name : String) : String :=
  "user_order_" ++ name

/-- The names `orderCommand.printall` lists for an enumeration of the store. -/
def listedNames (all : List (String × cache.Bytes)) : List String :=
  (all.filter fun p => strContains p.1 "user_order_").map fun p => strRemoveAll p.1 "user_order_"

/-- `orderCommand.printall`: the printed lines and the error. -/
def orderCommand.printall (db : cache.DataBase) : List String × Option CmdError :=
  match db.GetAll with
  | .error e => ([], some (.db e))
  | .ok all => ("Your Orders:" :: (listedNames all).map fun n => "  " ++ n, none)

/-- `getOrder`; `unmarshal` stands for `json.Unmarshal` into a `dawg.Order`. -/
def getOrder {O : Type} (unmarshal : cache.Bytes → Except CmdError O) (db : cache.DataBase)
    (name : String) : Except CmdError O :=
  match db.Get (userOrderKey name) with
  | .error e => .error (.db e)
  | .ok raw => unmarshal raw

/-- What `newOrderCmd.run` uses of `dawg` and `encoding/json`. -/
structure OrderEnv (S O P : Type) where
  NearestStore : Except CmdError S
  NewOrder : S → O
  GetProduct : S → String → Except CmdError P
  AddProduct : O → P → O
  Marshal : O → Except CmdError cache.Bytes

/-- The product loop of `newOrderCmd.run`. -/
def newOrderCmd.addProducts {S O P : Type} (env : OrderEnv S O P) (store : S) :
    O → List String → Except CmdError O
  | order, [] => .ok order
  | order, p :: rest =>
    match env.GetProduct store p with
    | .error e => .error e
    | .ok prod => newOrderCmd.addProducts env store (env.AddProduct order prod) rest

/-- `newOrderCmd.run`: the store after the command and the returned error.
The error of `db.Put` is assigned and then `nil` is returned. -/
def newOrderCmd.run {S O P : Type} (env : OrderEnv S O P) (store : Option S)
    (db : cache.DataBase) (name : String) (products : List String) :
    cache.DataBase × Option CmdError :=
  let found : Except CmdError S :=
    match store with
    | some s => .ok s
    | none => env.NearestStore
  match found with
  | .error e => (db, some e)
  | .ok s =>
    if name = "" then (db, some (.message "Error: No order name... use '--name=<order name>'"))
    else
      match newOrderCmd.addProducts env s (env.NewOrder s) products with
      | .error e => (db, some e)
      | .ok order =>
        match env.Marshal order with
        | .error e => (db, some e)
        | .ok raw => ((db.Put (userOrderKey name) raw).1, none)

/-! ## `cmd/menu.go` -/

/-- `maxStrLen`: the running maximum of the rune counts, from 0. -/
def maxStrLen (list : List String) : Int :=
  list.foldl (fun max s => if strLen s > max then strLen s else max) 0

/-- The loop of `menuCmd.printMenuItem` over the variants: one printed line
per variant, the operands of `Println` separated by blanks; `none` when a call
of `spaces` panics. `variantName` stands for the lookup of the name of a
variant in the menu. -/
def menuCmd.variantLines (variantName : String → String) (spacer : String) (max : Int) :
    List String → Option (List String)
  | [] => some []
  | v :: rest =>
    match spaces (strLen spacer + 3), spaces (max - strLen v) with
    | some lead, some pad =>
      match menuCmd.variantLines variantName spacer max rest with
      | some lines => some ((lead ++ " - " ++ v ++ " " ++ pad ++ " " ++ variantName v) :: lines)
      | none => none
    | _, _ => none

/-- `menuCmd.printMenuItem`: the printed lines, `none` when it panics in
`spaces`. `variants` is `product["Variants"]` when it is a list. -/
def menuCmd.printMenuItem (name code : String) (variants : Option (List String))
    (variantName : String → String) (spacer : String) : Option (List String) :=
  match variants with
  | some vs =>
    match menuCmd.variantLines variantName spacer (maxStrLen vs) vs with
    | some lines => some ((spacer ++ "  \"" ++ name ++ "\" [" ++ code ++ "]") :: lines ++ [""])
    | none => none
  | none => some [spacer ++ "  \"" ++ name ++ "\"", spacer ++ "    " ++ " - " ++ code]

/-! ## `dawg/dawg.go` -/

namespace dawg

/-- The status code of a warning. -/
def WarnigStatus : Int := 1

/-- The status code of a failure. -/
def FailureStatus : Int := -1

/-- The status code that signifies no problems. -/
def OkStatus : Int := 0

/-- One status item of a response. -/
structure statusItem where
  Code : String
  Message : String
  PulseCode : Int
  PulseText : String
  deriving DecidableEq, Repr

/-- The anonymous `Order` struct of `DominosError`. -/
structure orderStatus where
  Status : Int
  StatusItems : List statusItem
  deriving DecidableEq, Repr

/-- An error sent back by the servers; the raw decoded map `fullErr` is left
out. -/
structure DominosError where
  Status : Int
  StatusItems : List statusItem
  Order : orderStatus
  Msg : String
  deriving DecidableEq, Repr

/-- `IsWarning`. -/
def DominosError.IsWarning (err : DominosError) : Bool :=
  err.Status == WarnigStatus

/-- `IsFailure`. -/
def DominosError.IsFailure (err : DominosError) : Bool :=
  err.Status == FailureStatus

/-- `IsOk`. -/
def DominosError.IsOk (err : DominosError) : Bool :=
  err.Status != FailureStatus

/-- What `dominosErr` returns as an error: the decoding error, or the decoded
`DominosError`. -/
inductive RespError (E : Type) where
  | decoding (e : E)
  | dominos (e : DominosError)

/-- `dominosErr`; `init` stands for `DominosError.init` (JSON decoding of the
response into a fresh `DominosError`). -/
def dominosErr {E : Type} (init : cache.Bytes → Except E DominosError) (resp : cache.Bytes) :
    Option (RespError E) :=
  match init resp with
  | .error err => some (.decoding err)
  | .ok e => if e.IsOk then none else some (.dominos e)

end dawg

/-- The document of the example of the specification. -/
def exampleConfig : Config :=
  { Name := "Bob", Email := "",
    Address := { Street := "1 Main", CityName := "Town", State := "ca", Zipcode := "90001" },
    Card := { Number := "", Expiration := "", CVV := "" },
    Service := "Carryout",
    MyOrders := [{ Name := "friday" }] }

/-- Whether a key resolves to a leaf scalar field of the document. -/
def config.isLeaf (doc : config.Node) (key : String) : Bool :=
  match config.lookup doc key with
  | .ok (.scalar _ _ _) => true
  | _ => false

/-- A stand-in for `dawg` and `encoding/json` in which nothing fails: an order
is the list of its product codes, serialized as their lengths. -/
def demoEnv : OrderEnv Unit (List String) String :=
  { NearestStore := .ok (),
    NewOrder := fun _ => [],
    GetProduct := fun _ p => .ok p,
    AddProduct := fun o p => o ++ [p],
    Marshal := fun o => .ok (o.map String.length) }

/-- A stand-in for `json.Unmarshal` that keeps the raw bytes. -/
def demoUnmarshal : cache.Bytes → Except CmdError cache.Bytes :=
  fun raw => .ok raw

/-- A stand-in for `DominosError.init`: a response that starts with the byte
0 decodes to a failure, any other non-empty response to status 0, and the
empty response does not decode. -/
def demoInit : cache.Bytes → Except String dawg.DominosError
  | [] => .error "unexpected end of JSON input"
  | 0 :: _ => .ok ⟨-1, [], ⟨0, []⟩, ""⟩
  | _ :: _ => .ok ⟨0, [], ⟨0, []⟩, ""⟩

/-- The address of `TestAddressStr`. -/
def testAddress : address :=
  { Street := "1600 Pennsylvania Ave NW", CityName := "Washington", State := "dc",
    Zipcode := "20500" }

/-! ## The accessor: resolution and assignment -/

namespace config

theorem findField_mem (seg : String) :
    ∀ (fs : List (String × Node)) (c : Node), findField seg fs = some c →
      ∃ p ∈ fs, p.2 = c := by
  intro fs
  induction fs with
  | nil => intro c h; simp [findField] at h
  | cons p rest ih =>
    intro c h
    obtain ⟨name, old⟩ := p
    by_cases hn : lower name = lower seg
    · simp only [findField, hn, if_true, Option.some.injEq] at h
      exact ⟨(name, old), List.mem_cons_self _ _, h⟩
    · simp only [findField, hn, if_false] at h
      obtain ⟨q, hq, hc⟩ := ih c h
      exact ⟨q, List.mem_cons_of_mem _ hq, hc⟩

/-- An assignment that fails with `TypeMismatch` found a scalar field at the
path whose declared type rejects the text. -/
theorem assign_type_mismatch_resolve (v : String) :
    ∀ (segs : List String) (n : Node), assign n segs v = .error .TypeMismatch →
      ∃ k old d, resolve n segs = .ok (.scalar k old d) ∧ coerce k v = none := by
  intro segs
  induction segs with
  | nil =>
    intro n h
    cases n with
    | scalar k old d =>
      simp only [assign] at h
      cases hc : coerce k v with
      | none => exact ⟨k, old, d, rfl, hc⟩
      | some s' => simp [hc] at h
    | record fs => simp [assign] at h
    | list xs => simp [assign] at h
  | cons seg rest ih =>
    intro n h
    cases n with
    | scalar k old d => simp [assign] at h
    | record fs =>
      simp only [assign] at h
      cases hf : findField seg fs with
      | none => simp [hf] at h
      | some child =>
        simp only [hf] at h
        cases ha : assign child rest v with
        | ok child' => simp [ha] at h
        | error e =>
          simp only [ha, Except.error.injEq] at h
          subst h
          obtain ⟨k, old, d, h1, h2⟩ := ih child ha
          exact ⟨k, old, d, by simp only [resolve, hf]; exact h1, h2⟩
    | list xs =>
      simp only [assign] at h
      cases hp : parseIndex seg with
      | none => simp [hp] at h
      | some i =>
        simp only [hp] at h
        cases hg : xs[i]? with
        | none => simp [hg] at h
        | some child =>
          simp only [hg] at h
          cases ha : assign child rest v with
          | ok child' => simp [ha] at h
          | error e =>
            simp only [ha, Except.error.injEq] at h
            subst h
            obtain ⟨k, old, d, h1, h2⟩ := ih child ha
            exact ⟨k, old, d, by simp only [resolve, hp, hg]; exact h1, h2⟩

theorem textOnly_of_resolve :
    ∀ (segs : List String) (n m : Node), TextOnly n → resolve n segs = .ok m → TextOnly m := by
  intro segs
  induction segs with
  | nil =>
    intro n m hn h
    simp only [config.resolve, Except.ok.injEq] at h
    subst h; exact hn
  | cons seg rest ih =>
    intro n m hn h
    cases hn with
    | scalar s d => simp [config.resolve] at h
    | record fs hfs =>
      simp only [config.resolve] at h
      cases hf : findField seg fs with
      | none => simp [hf] at h
      | some child =>
        simp only [hf] at h
        obtain ⟨p, hp, hc⟩ := findField_mem seg fs child hf
        exact ih child m (hc ▸ hfs p hp) h
    | list xs hxs =>
      simp only [config.resolve] at h
      cases hp : parseIndex seg with
      | none => simp [hp] at h
      | some i =>
        simp only [hp] at h
        cases hg : xs[i]? with
        | none => simp [hg] at h
        | some child =>
          simp only [hg] at h
          exact ih child m (hxs child (List.getElem?_mem hg)) h

end config

theorem Config.toNode_textOnly (c : Config) : config.TextOnly c.toNode := by
  unfold Config.toNode Config.textField
  refine .record _ ?_
  intro p hp
  simp only [List.mem_cons, List.mem_singleton, List.mem_nil_iff, or_false] at hp
  rcases hp with rfl | rfl | rfl | rfl | rfl | rfl
  · exact .scalar _ _
  · exact .scalar _ _
  · refine .record _ ?_
    intro q hq
    simp only [List.mem_cons, List.mem_singleton, List.mem_nil_iff, or_false] at hq
    rcases hq with rfl | rfl | rfl | rfl <;> exact .scalar _ _
  · refine .record _ ?_
    intro q hq
    simp only [List.mem_cons, List.mem_singleton, List.mem_nil_iff, or_false] at hq
    rcases hq with rfl | rfl | rfl <;> exact .scalar _ _
  · exact .scalar _ _
  · refine .list _ ?_
    intro x hx
    simp only [List.mem_map] at hx
    obtain ⟨o, _, rfl⟩ := hx
    refine .record _ ?_
    intro q hq
    simp only [List.mem_cons, List.mem_singleton, List.mem_nil_iff, or_false] at hq
    subst hq
    exact .scalar _ _

/-- On a document of the `Config` schema `Set` never fails with
`TypeMismatch`: every scalar field is text, and any text is assignable. -/
theorem Config.Set_not_type_mismatch (c : Config) (key v : String) :
    (c.Set key v).2 ≠ some config.Error.TypeMismatch := by
  unfold Config.Set config.Set
  by_cases hk : key = ""
  · simp [hk]
  · simp only [hk, if_false]
    cases ha : config.assign c.toNode (strSplit key '.') v with
    | ok n' => simp
    | error e =>
      simp only [ne_eq, Option.some.injEq]
      intro he
      subst he
      obtain ⟨k, old, d, h1, h2⟩ := config.assign_type_mismatch_resolve v _ _ ha
      have ht := config.textOnly_of_resolve _ _ _ c.toNode_textOnly h1
      cases ht with
      | scalar old d => simp [config.coerce] at h2

namespace cache

theorem Records.find_delete (st : Records) (name : String) :
    Records.find (Records.delete st name) name = none := by
  unfold Records.find Records.delete
  rw [List.find?_eq_none]
  intro r hr
  have := (List.mem_filter.mp hr).2
  simpa using this

theorem Records.find_put (st : Records) (r : CacheRecord) :
    Records.find (Records.put st r) r.resourceName = some r := by
  simp [Records.find, Records.put]

/-- What it means that an unforced `Resolve` fetched: its log is a single
invocation that produced `snap` exactly when the store is available, the
resource is Absent or Stale, and the refresh capability, given the prior
snapshot if any, produced `snap`. -/
theorem Resolve_fetched_iff {σ : Type} (st : RecordStore) (name : String) (ttl now : Int)
    (degraded : Bool) (refresh : RefreshCapability σ) (s0 : σ) (prior : Option Bytes)
    (snap : Bytes) :
    (Resolve st name ttl now false degraded (logged refresh) (s0, [])).capability.2
        = [(prior, some snap)]
      ↔ st.broken = false ∧ stateOf st.records name ttl now false ≠ State.Fresh
        ∧ prior = (Records.find st.records name).map (fun r => r.snapshot)
        ∧ (refresh s0 prior).2 = some snap := by
  unfold Resolve RecordStore.Get stateOf
  cases hb : st.broken with
  | true => simp
  | false =>
    simp only [Bool.false_eq_true, if_false]
    cases hfind : Records.find st.records name with
    | none =>
      simp only [logged]
      cases hr : refresh s0 none with
      | mk s1 out =>
        cases out with
        | none =>
          simp only [List.nil_append, List.cons.injEq, Prod.mk.injEq, and_true, Option.map_none',
            ne_eq, true_and]
          constructor
          · rintro ⟨_, h⟩; cases h
          · rintro ⟨_, rfl, h⟩
            rw [hr] at h; cases h
        | some sn =>
          simp only [writeBack, RecordStore.Put, hb, Bool.false_eq_true, if_false,
            List.nil_append, List.cons.injEq, Prod.mk.injEq, Option.some.injEq, and_true,
            Option.map_none', ne_eq, true_and]
          constructor
          · rintro ⟨rfl, rfl⟩
            exact ⟨by simp, rfl, by rw [hr]⟩
          · rintro ⟨_, rfl, h⟩
            rw [hr] at h
            exact ⟨rfl, Option.some.inj h⟩
    | some r =>
      by_cases hc : now - r.fetchedAt < ttl
      · simp [hc]
      · simp only [hc, false_and, if_false, logged, Option.map_some']
        cases hr : refresh s0 (some r.snapshot) with
        | mk s1 out =>
          cases out with
          | none =>
            cases degraded <;>
            · simp only [Bool.false_eq_true, if_true, if_false, List.nil_append,
                List.cons.injEq, Prod.mk.injEq, and_true, ne_eq, true_and]
              constructor
              · rintro ⟨_, h⟩; cases h
              · rintro ⟨_, rfl, h⟩
                rw [hr] at h; cases h
          | some sn =>
            simp only [writeBack, RecordStore.Put, hb, Bool.false_eq_true, if_false,
              List.nil_append, List.cons.injEq, Prod.mk.injEq, Option.some.injEq, and_true,
              ne_eq, true_and]
            constructor
            · rintro ⟨rfl, rfl⟩
              exact ⟨by simp, rfl, by rw [hr]⟩
            · rintro ⟨_, rfl, h⟩
              rw [hr] at h
              exact ⟨rfl, Option.some.inj h⟩

/-- C4: after an `Invalidate` that succeeded the resource is Absent, and the
next `Resolve` invokes the refresh capability, exactly once and with no prior
snapshot, whatever the staleness window, the time, the flags and the record
that was stored before; what it returns is what the refresh capability
produced. The same holds after a successful `config --reset-cache` on an
available store. -/
theorem Resolve_after_Invalidate {σ : Type} (st st' : RecordStore) (name : String)
    (ttl now : Int) (force degraded : Bool) (refresh : RefreshCapability σ) (s0 : σ)
    (hinv : Invalidate st name = (st', none)) :
    st'.Get name = .error .NotFound
    ∧ stateOf st'.records name ttl now force = State.Absent
    ∧ (Resolve st' name ttl now force degraded (logged refresh) (s0, [])).capability
        = ((refresh s0 none).1, [(none, (refresh s0 none).2)])
    ∧ (∀ snap, (refresh s0 none).2 = some snap →
        (Resolve st' name ttl now force degraded (logged refresh) (s0, [])).result = .ok snap
        ∧ (Resolve st' name ttl now force degraded (logged refresh) (s0, [])).store.Get name
            = .ok ⟨name, snap, now⟩)
    ∧ ((refresh s0 none).2 = none →
        (Resolve st' name ttl now force degraded (logged refresh) (s0, [])).result
            = .error .RefreshFailed
        ∧ (Resolve st' name ttl now force degraded (logged refresh) (s0, [])).store = st')
    ∧ (∀ flag : Bool, st.broken = false →
        (Resolve (configCmd.run ⟨false, false, true, flag⟩ true st).1 name ttl now force degraded
            (logged refresh) (s0, [])).capability
          = ((refresh s0 none).1, [(none, (refresh s0 none).2)])) := by
  have hb : st.broken = false := by
    cases h : st.broken with
    | false => rfl
    | true => simp [Invalidate, RecordStore.Delete, h] at hinv
  have hst : st' = ⟨Records.delete st.records name, false⟩ := by
    simp only [Invalidate, RecordStore.Delete, hb, Bool.false_eq_true, if_false,
      Prod.mk.injEq, and_true] at hinv
    rw [← hinv, ← hb]
  subst hst
  have hget : (⟨Records.delete st.records name, false⟩ : RecordStore).Get name
      = .error .NotFound := by
    simp [RecordStore.Get, Records.find_delete]
  refine ⟨hget, ?_, ?_, ?_, ?_, ?_⟩
  · simp [stateOf, Records.find_delete]
  · simp only [Resolve, hget, logged]
    cases hr : refresh s0 none with
    | mk s1 out => cases out <;> simp [writeBack, RecordStore.Put]
  · intro snap hs
    simp only [Resolve, hget, logged]
    cases hr : refresh s0 none with
    | mk s1 out =>
      simp only [hr] at hs
      subst hs
      simp [writeBack, RecordStore.Put, RecordStore.Get,
        Records.find_put (Records.delete st.records name) ⟨name, snap, now⟩]
  · intro hs
    simp only [Resolve, hget, logged]
    cases hr : refresh s0 none with
    | mk s1 out =>
      simp only [hr] at hs
      subst hs
      simp
  · intro flag _
    simp only [configCmd.run, Resolve, RecordStore.Get, hb, Records.find, logged]
    cases hr : refresh s0 none with
    | mk s1 out => cases out <;> simp [writeBack, RecordStore.Put, hb]

/-- Witness of C4: a record refreshed at time 0 is invalidated, and a
`Resolve` ten seconds later, inside the staleness window of one hour, invokes
the refresh capability. -/
theorem Resolve_after_Invalidate_witness :
    (Resolve (Invalidate ⟨[⟨"menu", [1], 0⟩], false⟩ "menu").1 "menu" 3600 10 false false
        (logged (fun (n : Nat) _ => (n + 1, some [2]))) (0, [])).capability
      = (1, [(none, some [2])]) :=
  (Resolve_after_Invalidate ⟨[⟨"menu", [1], 0⟩], false⟩
    (Invalidate ⟨[⟨"menu", [1], 0⟩], false⟩ "menu").1 "menu" 3600 10 false false
    (fun (n : Nat) _ => (n + 1, some [2])) 0 rfl).2.2.1

/-- On a broken store `Invalidate` fails, and `Resolve` fails with
`StoreUnavailable` without invoking the refresh capability. -/
theorem Resolve_store_unavailable {σ : Type} (st : RecordStore) (name : String)
    (ttl now : Int) (force degraded : Bool) (refresh : RefreshCapability σ) (s0 : σ)
    (hb : st.broken = true) :
    Invalidate st name = (st, some .StoreUnavailable)
    ∧ Resolve st name ttl now force degraded (logged refresh) (s0, [])
        = ⟨st, .error .StoreUnavailable, (s0, [])⟩ := by
  simp [Invalidate, RecordStore.Delete, Resolve, RecordStore.Get, hb]

end cache

/-! ## The command handlers and the server error -/

/-- The values `config get` prints for a list of arguments: those of the
arguments before the first one that `Get` finds nothing for, in order. -/
theorem configGetCmd.loop_eq (cfg : config.Node) :
    ∀ (args : List String) (out : List config.Value),
      configGetCmd.loop cfg args out
        = (out ++ (args.takeWhile fun a => (config.Get cfg a).isSome).filterMap (config.Get cfg),
            (args.find? fun a => (config.Get cfg a).isNone).map
              fun a => CmdError.message ("cannot find " ++ a)) := by
  intro args
  induction args with
  | nil => intro out; simp [configGetCmd.loop]
  | cons arg rest ih =>
    intro out
    cases hg : config.Get cfg arg with
    | none => simp [configGetCmd.loop, hg]
    | some v => simp [configGetCmd.loop, hg, ih]

/-- C5: `config get` returns an error exactly when the argument list is empty
or `Get` yields nothing for some argument, which is exactly when the path of
that argument does not resolve in the document (as for the undeclared
`address.country`). For every non-empty list it prints, in order, the value
of every argument before the first one that does not resolve, and the error
names that argument. A scalar field that is unset is no error: what is
printed for it is the default it declares, or else the zero or empty
representation of its type (as for `service` and `name` of a document that
holds neither). -/
theorem configGetCmd.run_error_iff (cfg : config.Node) (args : List String) :
    configGetCmd.run cfg [] = ([], some (CmdError.message "no variable given"))
    ∧ (args ≠ [] →
        configGetCmd.run cfg args
          = ((args.takeWhile fun a => (config.Get cfg a).isSome).filterMap (config.Get cfg),
              (args.find? fun a => (config.Get cfg a).isNone).map
                fun a => CmdError.message ("cannot find " ++ a)))
    ∧ ((configGetCmd.run cfg args).2.isSome = true
        ↔ args = [] ∨ ∃ a ∈ args, config.Get cfg a = none)
    ∧ ((∀ a ∈ args, (config.Get cfg a).isSome = true) → args ≠ [] →
        configGetCmd.run cfg args = (args.filterMap (config.Get cfg), none))
    ∧ (∀ a, config.Get cfg a = none ↔ ∃ e, config.lookup cfg a = .error e)
    ∧ (∀ a k d, config.lookup cfg a = .ok (.scalar k none d) →
        config.Get cfg a = some (config.Value.text (d.getD k.zeroExternal)))
    ∧ (∀ a k v d, config.lookup cfg a = .ok (.scalar k (some v) d) →
        config.Get cfg a = some (config.Value.text v.external))
    ∧ config.Get exampleConfig.toNode "address.country" = none
    ∧ configGetCmd.run ({ exampleConfig with Name := "", Service := "" } : Config).toNode
          ["service", "name", "address.state"]
        = ([config.Value.text "\"Delivery\"", config.Value.text "", config.Value.text "ca"],
            none)
    ∧ configGetCmd.run exampleConfig.toNode ["name", "address.country", "email"]
        = ([config.Value.text "Bob"], some (CmdError.message "cannot find address.country")) := by
  have hrun : args ≠ [] →
      configGetCmd.run cfg args
        = ((args.takeWhile fun a => (config.Get cfg a).isSome).filterMap (config.Get cfg),
            (args.find? fun a => (config.Get cfg a).isNone).map
              fun a => CmdError.message ("cannot find " ++ a)) := by
    intro hne
    cases args with
    | nil => exact absurd rfl hne
    | cons a rest =>
      simp only [configGetCmd.run, List.length_cons, Nat.lt_one_iff, Nat.add_one_ne_zero,
        if_false, configGetCmd.loop_eq, List.nil_append]
  refine ⟨rfl, hrun, ?_, ?_, ?_, ?_, ?_, rfl, rfl, rfl⟩
  · cases args with
    | nil => simp [configGetCmd.run]
    | cons a rest =>
      rw [hrun (List.cons_ne_nil _ _)]
      simp only [Option.isSome_map', List.find?_isSome, Option.isNone_iff_eq_none,
        decide_eq_true_eq, List.cons_ne_nil, false_or]
  · intro hall hne
    rw [hrun hne]
    have h1 : (args.takeWhile fun a => (config.Get cfg a).isSome) = args := by
      rw [List.takeWhile_eq_self_iff]
      intro a ha
      exact hall a ha
    have h2 : (args.find? fun a => (config.Get cfg a).isNone) = none := by
      rw [List.find?_eq_none]
      intro a ha
      have := hall a ha
      cases hg : config.Get cfg a with
      | none => simp [hg] at this
      | some v => simp
    rw [h1, h2]
    rfl
  · intro a
    unfold config.Get
    cases config.lookup cfg a with
    | error e => simp
    | ok n => simp
  · intro a k d h
    cases d <;> simp [config.Get, h, config.represent]
  · intro a k v d h
    simp [config.Get, h, config.represent]

/-- C6 (the code at the failing input): `config set name=a=b` succeeds and
sets `name` to `a`, the text up to the second `=`, not to `a=b`; an argument
without `=` is rejected with the format error. -/
theorem configSetCmd.run_value_with_equals :
    (configSetCmd.run exampleConfig.toNode ["name=a=b"]).2 = none
    ∧ (configSetCmd.run exampleConfig.toNode ["name=a=b"]).1
        = (config.Set exampleConfig.toNode "name" "a").1
    ∧ config.Get (configSetCmd.run exampleConfig.toNode ["name=a=b"]).1 "name"
        = some (config.Value.text "a")
    ∧ (configSetCmd.run exampleConfig.toNode ["name"]).2
        = some (CmdError.message "use '<key>=<value>' format") :=
  ⟨rfl, rfl, rfl, rfl⟩

/-- C7 (amended): the bulk display produces exactly one entry per top-level
field of `Config`, six in all whatever the document holds, each keyed by the
Go name of the field and paired with the whole value of the field; the nested
address and card documents and the `myorders` sequence are one entry each. -/
theorem Config.printAll_entries (c : Config) :
    c.printAll.2 = none
    ∧ c.printAll.1.length = 6
    ∧ c.printAll.1.map Prod.fst = ["Name", "Email", "Address", "Card", "Service", "MyOrders"]
    ∧ c.printAll.1.map Prod.snd
        = [.str c.Name, .str c.Email, .address c.Address, .card c.Card, .str c.Service,
            .orders c.MyOrders] :=
  ⟨rfl, rfl, rfl, rfl⟩

/-- C7 (as stated) fails: the example document has eleven leaf scalar fields,
each reached by its dotted path, but the bulk display has six entries and
none of them is keyed by one of these paths. -/
theorem Config.printAll_counterexample :
    (["name", "email", "address.street", "address.city_name", "address.state",
        "address.zipcode", "card.number", "card.expiration", "card.cvv", "service",
        "myorders.0.name"].all fun p =>
          config.isLeaf exampleConfig.toNode p
            && !(exampleConfig.printAll.1.map Prod.fst).contains p) = true
    ∧ exampleConfig.printAll.1.length = 6 := by
  decide

/-- C8 (the code at the failing input): the order created under the name
`user_order_a` is stored under the key `user_order_user_order_a` and listed
as `a`; `getOrder` does not find the listed name, and finds the real one; a
key of another namespace that merely contains the marker is listed too. -/
theorem orderCommand.printall_marker_in_name :
    newOrderCmd.run demoEnv none ⟨[], false⟩ "user_order_a" []
      = (⟨[("user_order_user_order_a", [])], false⟩, none)
    ∧ orderCommand.printall ⟨[("user_order_user_order_a", [])], false⟩
        = (["Your Orders:", "  a"], none)
    ∧ getOrder demoUnmarshal ⟨[("user_order_user_order_a", [])], false⟩ "a"
        = .error (.db .NotFound)
    ∧ getOrder demoUnmarshal ⟨[("user_order_user_order_a", [])], false⟩ "user_order_a"
        = .ok []
    ∧ orderCommand.printall ⟨[("menu_user_order_x", [7])], false⟩
        = (["Your Orders:", "  menu_x"], none) :=
  ⟨by decide, by decide, rfl, rfl, by decide⟩

/-- C9 (the code at the failing input): on a store whose `Put` fails,
`order new` reports success although no entry was written under the key of
the order. -/
theorem newOrderCmd.run_put_error_dropped :
    (cache.DataBase.Put ⟨[], true⟩ (userOrderKey "dinner") [8]).2
      = some cache.DBError.StoreUnavailable
    ∧ newOrderCmd.run demoEnv none ⟨[], true⟩ "dinner" ["14SCREEN"] = (⟨[], true⟩, none)
    ∧ (newOrderCmd.run demoEnv none ⟨[], true⟩ "dinner" ["14SCREEN"]).1.entries.find?
        (fun p => p.1 = userOrderKey "dinner") = none :=
  ⟨by decide, by decide, by decide⟩

namespace dawg

/-- C10: `IsOk` holds exactly when `IsFailure` does not, that is when the
status is not -1; `IsWarning` implies `IsOk` and excludes `IsFailure`; and
for a response that decodes to `err`, `dominosErr` returns no error exactly
when the decoded status is not -1, and returns `err` itself otherwise. -/
theorem dominosErr_status {E : Type} (init : cache.Bytes → Except E DominosError)
    (resp : cache.Bytes) (err : DominosError) (hdec : init resp = .ok err) :
    (err.IsOk = true ↔ err.IsFailure = false)
    ∧ (err.IsFailure = false ↔ err.Status ≠ -1)
    ∧ (err.IsWarning = true → err.IsOk = true)
    ∧ ¬ (err.IsWarning = true ∧ err.IsFailure = true)
    ∧ ((dominosErr init resp).isNone = true ↔ err.Status ≠ -1)
    ∧ (err.Status = -1 → (dominosErr init resp = some (RespError.dominos err))) := by
  unfold dominosErr
  simp only [hdec, DominosError.IsOk, DominosError.IsFailure, DominosError.IsWarning,
    FailureStatus, WarnigStatus]
  refine ⟨?_, ?_, ?_, ?_, ?_, ?_⟩
  · simp
  · simp
  · intro h
    simp only [beq_iff_eq] at h
    simp [h]
  · rintro ⟨h1, h2⟩
    simp only [beq_iff_eq] at h1 h2
    omega
  · by_cases h : err.Status = -1 <;> simp [h]
  · intro h
    simp [h]

/-- Witness of C10: a response that decodes to a failure status. -/
theorem dominosErr_status_witness :
    dominosErr demoInit [0] = some (RespError.dominos ⟨-1, [], ⟨0, []⟩, ""⟩) :=
  (dominosErr_status demoInit [0] ⟨-1, [], ⟨0, []⟩, ""⟩ rfl).2.2.2.2.2 rfl

end dawg

/-! ## Addresses and the menu display -/

theorem strLen_nonneg (s : String) : 0 ≤ strLen s :=
  Int.ofNat_nonneg _

theorem strLen_strToUpper (toUpper : Char → Char) (s : String) :
    strLen (strToUpper toUpper s) = strLen s := by
  simp [strLen, strToUpper]

/-- C11: for every address, `StateCode` is the state upper-cased when the
state has exactly two runes and the empty text otherwise, `Zip` is the zip
code unchanged when it has exactly five runes and the empty text otherwise;
a non-empty `StateCode` has two runes and a non-empty `Zip` has five. On the
address of the test, `dc` is rendered `DC` and `20500` is rendered `20500`,
while the zip code `123456` and the state `ABC` give the empty text. -/
theorem address.StateCode_Zip (toUpper : Char → Char) (a : address) :
    (a.StateCode toUpper = if strLen a.State = 2 then strToUpper toUpper a.State else "")
    ∧ (a.Zip = if strLen a.Zipcode = 5 then a.Zipcode else "")
    ∧ (strLen a.State ≠ 2 → a.StateCode toUpper = "")
    ∧ (strLen a.Zipcode ≠ 5 → a.Zip = "")
    ∧ (a.StateCode toUpper ≠ "" → strLen (a.StateCode toUpper) = 2)
    ∧ (a.Zip ≠ "" → strLen a.Zip = 5)
    ∧ testAddress.StateCode Char.toUpper = "DC"
    ∧ testAddress.Zip = "20500"
    ∧ ({ testAddress with Zipcode := "123456" } : address).Zip = ""
    ∧ ({ testAddress with State := "ABC" } : address).StateCode Char.toUpper = "" := by
  refine ⟨rfl, rfl, ?_, ?_, ?_, ?_, by decide, by decide, by decide, by decide⟩
  · intro h
    simp [address.StateCode, h]
  · intro h
    simp [address.Zip, h]
  · intro h
    unfold address.StateCode at h ⊢
    by_cases h2 : strLen a.State = 2
    · simp only [h2, if_true]
      rw [strLen_strToUpper]; exact h2
    · simp [h2] at h
  · intro h
    unfold address.Zip at h ⊢
    by_cases h5 : strLen a.Zipcode = 5
    · simp only [h5, if_true]
    · simp [h5] at h

theorem maxStrLen_fold_ge_init (l : List String) :
    ∀ acc : Int, acc ≤ l.foldl (fun max s => if strLen s > max then strLen s else max) acc := by
  induction l with
  | nil => intro acc; exact le_refl _
  | cons s rest ih =>
    intro acc
    simp only [List.foldl_cons]
    refine le_trans ?_ (ih _)
    split <;> omega

theorem maxStrLen_fold_ge_mem (l : List String) :
    ∀ acc : Int, ∀ s ∈ l,
      strLen s ≤ l.foldl (fun max s => if strLen s > max then strLen s else max) acc := by
  induction l with
  | nil => intro acc s hs; cases hs
  | cons t rest ih =>
    intro acc s hs
    simp only [List.foldl_cons]
    rcases List.mem_cons.mp hs with rfl | hrest
    · refine le_trans ?_ (maxStrLen_fold_ge_init rest _)
      split <;> omega
    · exact ih _ s hrest

theorem maxStrLen_fold_attained (l : List String) :
    ∀ acc : Int,
      l.foldl (fun max s => if strLen s > max then strLen s else max) acc = acc
      ∨ ∃ s ∈ l, l.foldl (fun max s => if strLen s > max then strLen s else max) acc = strLen s := by
  induction l with
  | nil => intro acc; exact Or.inl rfl
  | cons t rest ih =>
    intro acc
    simp only [List.foldl_cons]
    rcases ih (if strLen t > acc then strLen t else acc) with h | ⟨s, hs, h⟩
    · by_cases ht : strLen t > acc
      · right
        refine ⟨t, List.mem_cons_self _ _, ?_⟩
        rw [h]; simp [ht]
      · left
        rw [h]; simp [ht]
    · exact Or.inr ⟨s, List.mem_cons_of_mem _ hs, h⟩

theorem spaces_isSome (i : Int) (h : 0 ≤ i) : (spaces i).isSome = true := by
  unfold spaces
  have : ¬ i < 0 := by omega
  simp [this]

theorem menuCmd.variantLines_isSome (variantName : String → String) (spacer : String)
    (max : Int) :
    ∀ vs : List String, (∀ v ∈ vs, strLen v ≤ max) →
      (menuCmd.variantLines variantName spacer max vs).isSome = true := by
  intro vs
  induction vs with
  | nil => intro _; rfl
  | cons v rest ih =>
    intro h
    have hv : 0 ≤ max - strLen v := by
      have := h v (List.mem_cons_self _ _)
      omega
    have hs : 0 ≤ strLen spacer + 3 := by
      have := strLen_nonneg spacer
      omega
    have hrest := ih (fun w hw => h w (List.mem_cons_of_mem _ hw))
    obtain ⟨lead, hlead⟩ := Option.isSome_iff_exists.mp (spaces_isSome _ hs)
    obtain ⟨pad, hpad⟩ := Option.isSome_iff_exists.mp (spaces_isSome _ hv)
    obtain ⟨lines, hlines⟩ := Option.isSome_iff_exists.mp hrest
    simp [menuCmd.variantLines, hlead, hpad, hlines]

/-- C12: `maxStrLen` is 0 on the empty list and otherwise the largest rune
count among the elements: it is the rune count of some element and at least
the rune count of every element. Hence for every variant `v` of the list the
padding count `max - strLen(v)` is non-negative, `spaces` does not panic on
it, and `printMenuItem` prints its lines without panicking in `spaces`. -/
theorem maxStrLen_bounds (list : List String) (name code spacer : String)
    (variantName : String → String) :
    maxStrLen [] = 0
    ∧ (list ≠ [] → ∃ s ∈ list, maxStrLen list = strLen s)
    ∧ (∀ s ∈ list, strLen s ≤ maxStrLen list)
    ∧ (∀ v ∈ list, 0 ≤ maxStrLen list - strLen v
        ∧ spaces (maxStrLen list - strLen v)
            = some (String.mk (List.replicate (maxStrLen list - strLen v).toNat ' ')))
    ∧ (menuCmd.printMenuItem name code (some list) variantName spacer).isSome = true := by
  have hge : ∀ s ∈ list, strLen s ≤ maxStrLen list := maxStrLen_fold_ge_mem list 0
  refine ⟨rfl, ?_, hge, ?_, ?_⟩
  · intro hne
    rcases maxStrLen_fold_attained list 0 with h | h
    · cases list with
      | nil => exact absurd rfl hne
      | cons t rest =>
        refine ⟨t, List.mem_cons_self _ _, ?_⟩
        have h1 : strLen t ≤ maxStrLen (t :: rest) := hge t (List.mem_cons_self _ _)
        have h2 : maxStrLen (t :: rest) = 0 := h
        have h3 := strLen_nonneg t
        omega
    · exact h
  · intro v hv
    have h := hge v hv
    have hnn : 0 ≤ maxStrLen list - strLen v := by omega
    refine ⟨hnn, ?_⟩
    unfold spaces
    have : ¬ maxStrLen list - strLen v < 0 := by omega
    simp [this]
  · have h := menuCmd.variantLines_isSome variantName spacer (maxStrLen list) list hge
    obtain ⟨lines, hlines⟩ := Option.isSome_iff_exists.mp h
    simp [menuCmd.printMenuItem, hlines]
